import Mathlib

/-!
Verification of the record-linkage pipeline of `Recordlinkage_Practice.ipynb`.

The notebook drives a pipeline of four stages:
1. blocking indexer: `indexer.block('state'); pairs = indexer.index(dfA, dfB)`;
2. comparison engine: `compare_cl.exact(...)` three times, `compare_cl.string(...,
   threshold=0.85)`, then `potential_matches = compare_cl.compute(pairs, dfA, dfB)`;
3. match decision: `matched_rows = potential_matches[potential_matches.sum(axis=1) >= 3]`;
4. merge: `dfB_new = dfB[~dfB.index.isin(duplicates_rows)]` followed by
   `full_data = pd.concat([dfA, dfB_new], ignore_index=True)`.

Tables are modelled as a column schema plus rows of optional string values
(`none` models a missing value, pandas `NaN`); each row carries its index
label (the record id). The internals of the `recordlinkage` library calls
(blocking, comparators, compute) are not part of this repository; those
definitions are modelled from the spec, as noted in their doc comments.
-/

/-- A field value: `none` models a missing value (`NaN`). -/
abbrev Value := Option String

/-- A data frame: a column schema and rows, each row carrying its index
label (record id) and its values in schema order. -/
structure Table where
  schema : List String
  rows : List (String × List Value)

/-- One labelled row of a table. -/
abbrev Row := String × List Value

/-- Value of field `f` in a row: `none` when `f` is absent from the schema
(or the row is too short), `some v` when present (`v` may itself be a
missing value). -/
def getVal (sch : List String) (row : List Value) (f : String) : Option Value :=
  (sch.findIdx? (fun g => g = f)).bind (fun i => row.get? i)

/-- Modelled from the spec: the blocking key of a row (the internals of
`recordlinkage.Index().block(...)` are not in this repository). The key is
the list of values of the blocking fields; it is `none` as soon as any
blocking field is absent or null, since such records form no pairs. -/
def blockKey (keys : List String) (sch : List String) (row : List Value) :
    Option (List String) :=
  keys.mapM (fun k => Option.join (getVal sch row k))

/-- Modelled from the spec: candidate record pairs emitted by
`indexer.index(dfA, dfB)` after `indexer.block(keys)` (library internals
not in this repository). A and B are partitioned into groups by blocking
key; for every key present on both sides the full cross product of the two
groups is emitted, A-side records in their original order outermost. -/
def indexBlockRecs (keys : List String) (A B : Table) : List (Row × Row) :=
  A.rows.flatMap (fun a =>
    match blockKey keys A.schema a.2 with
    | none => []
    | some ka =>
      (B.rows.filter (fun b => decide (blockKey keys B.schema b.2 = some ka))).map
        (fun b => (a, b)))

/-- The candidate pair set as emitted to the user: pairs of record ids,
A-side id first. -/
def indexPairs (keys : List String) (A B : Table) : List (String × String) :=
  (indexBlockRecs keys A B).map (fun p => (p.1.1, p.2.1))

/-- Kind of a configured comparator: exact equality or Levenshtein string
similarity gated at a threshold. -/
inductive CompKind where
  | exact : CompKind
  | stringSim : Rat → CompKind

/-- One configured comparator, as built by `compare_cl.exact(fieldA, fieldB,
label=...)` or `compare_cl.string(fieldA, fieldB, threshold=..., label=...)`. -/
structure Comparator where
  fieldA : String
  fieldB : String
  kind : CompKind
  label : String

/-- Modelled from the spec: the exact comparator of `compare_cl.exact`
(library internals not in this repository): 1 when both values are present
and equal, 0 otherwise; a missing value on either side gives 0, never an
error. -/
def exactScore (va vb : Value) : Rat :=
  match va, vb with
  | some x, some y => if x = y then 1 else 0
  | _, _ => 0

/-- Levenshtein edit distance between two character lists. -/
def levDist : List Char → List Char → Nat
  | [], ys => ys.length
  | x :: xs, [] => (x :: xs).length
  | x :: xs, y :: ys =>
    if x = y then levDist xs ys
    else 1 + min (levDist xs (y :: ys)) (min (levDist (x :: xs) ys) (levDist xs ys))
termination_by xs ys => xs.length + ys.length
decreasing_by all_goals (simp only [List.length_cons]; omega)

/-- Normalized Levenshtein similarity between two strings:
`1 - distance / max(length)`, and 1 for two empty strings. -/
def normSim (x y : String) : Rat :=
  let m := max x.length y.length
  if m = 0 then 1 else 1 - (levDist x.data y.data : Rat) / (m : Rat)

/-- Modelled from the spec: the threshold-gated string comparator of
`compare_cl.string(..., threshold=t)` (library internals not in this
repository): 1 when both values are present and the normalized similarity
reaches the threshold, 0 otherwise; a missing value on either side gives 0. -/
def stringScore (t : Rat) (va vb : Value) : Rat :=
  match va, vb with
  | some x, some y => if t ≤ normSim x y then 1 else 0
  | _, _ => 0

/-- Score of one comparator kind on a pair of values. -/
def compScore : CompKind → Value → Value → Rat
  | CompKind.exact, va, vb => exactScore va vb
  | CompKind.stringSim t, va, vb => stringScore t va vb

/-- Modelled from the spec: the configuration check of
`compare_cl.compute`: every comparator must reference fields present in
the schemas of both tables. -/
def fieldsOk (cs : List Comparator) (A B : Table) : Bool :=
  cs.all (fun c => decide (c.fieldA ∈ A.schema) && decide (c.fieldB ∈ B.schema))

/-- Feature vector of one candidate record pair: the scores of the
configured comparators in configuration order; a field value that is
absent or missing scores as a missing value. -/
def featureRow (cs : List Comparator) (A B : Table) (a b : Row) : List Rat :=
  cs.map (fun c =>
    compScore c.kind (Option.join (getVal A.schema a.2 c.fieldA))
      (Option.join (getVal B.schema b.2 c.fieldB)))

/-- Modelled from the spec: `compare_cl.compute(pairs, dfA, dfB)` (library
internals not in this repository). Fails with a configuration error when
any comparator references a field absent from either schema — no partial
result; otherwise returns the feature table: one labelled feature vector
per candidate pair. -/
def compute (cs : List Comparator) (A B : Table) (prs : List (Row × Row)) :
    Except String (List ((String × String) × List Rat)) :=
  if fieldsOk cs A B then
    Except.ok (prs.map (fun p => ((p.1.1, p.2.1), featureRow cs A B p.1 p.2)))
  else
    Except.error "configuration error: unknown field"

/-- Match decision at threshold `t`: keep the feature-table rows whose
scores sum to at least `t`. -/
def decideMatches (t : Rat) (ft : List ((String × String) × List Rat)) :
    List ((String × String) × List Rat) :=
  ft.filter (fun r => decide (t ≤ r.2.sum))

/-- The notebook's decision rule, `potential_matches[potential_matches.sum(axis=1) >= 3]`. -/
def matchedRows (ft : List ((String × String) × List Rat)) :
    List ((String × String) × List Rat) :=
  decideMatches 3 ft

/-- The notebook's `dfB_new = dfB[~dfB.index.isin(duplicates_rows)]`: the
B-rows whose record id appears in no matched pair. -/
def dfBNew (B : Table) (dupIds : List String) : List Row :=
  B.rows.filter (fun b => ! decide (b.1 ∈ dupIds))

/-- The notebook's `full_data = pd.concat([dfA, dfB_new], ignore_index=True)`:
all of A's rows then the surviving B-rows, re-indexed 0, 1, 2, ... with the
original record ids discarded. -/
def fullData (A B : Table) (dupIds : List String) : List (Nat × List Value) :=
  (A.rows.map Prod.snd ++ (dfBNew B dupIds).map Prod.snd).enum

/-- The full pipeline of the notebook: block-index, compare, decide at
threshold `thr`, merge. -/
def pipeline (keys : List String) (cs : List Comparator) (thr : Rat) (A B : Table) :
    Except String (List (Nat × List Value)) :=
  match compute cs A B (indexBlockRecs keys A B) with
  | Except.error e => Except.error e
  | Except.ok ft =>
    let dupIds := (decideMatches thr ft).map (fun r => r.1.2)
    Except.ok (fullData A B dupIds)

/-- Two runs of the pipeline on identical inputs and configuration. -/
def runPipelineTwice (keys : List String) (cs : List Comparator) (thr : Rat)
    (A B : Table) :
    Except String (List (Nat × List Value)) × Except String (List (Nat × List Value)) :=
  (pipeline keys cs thr A B, pipeline keys cs thr A B)

/-! ## Helper lemmas -/

theorem mem_indexBlockRecs_iff (keys : List String) (A B : Table) (p : Row × Row) :
    p ∈ indexBlockRecs keys A B
      ↔ p.1 ∈ A.rows ∧ p.2 ∈ B.rows
        ∧ ∃ ka, blockKey keys A.schema p.1.2 = some ka
            ∧ blockKey keys B.schema p.2.2 = some ka := by
  constructor
  · intro hp
    rw [indexBlockRecs, List.mem_flatMap] at hp
    obtain ⟨a, ha, hpa⟩ := hp
    cases hk : blockKey keys A.schema a.2 with
    | none => rw [hk] at hpa; cases hpa
    | some ka =>
      rw [hk] at hpa
      rw [List.mem_map] at hpa
      obtain ⟨b, hb, hpb⟩ := hpa
      rw [List.mem_filter] at hb
      subst hpb
      exact ⟨ha, hb.1, ka, hk, of_decide_eq_true hb.2⟩
  · rintro ⟨h1, h2, ka, hka, hkb⟩
    rw [indexBlockRecs, List.mem_flatMap]
    refine ⟨p.1, h1, ?_⟩
    rw [hka, List.mem_map]
    exact ⟨p.2, List.mem_filter.2 ⟨h2, decide_eq_true hkb⟩, rfl⟩

/-- Sample table A used by witness instantiations. -/
def wTA : Table :=
  ⟨["name", "state"], [("a1", [some "ann", some "nsw"]), ("a2", [some "bob", none])]⟩

/-- Sample table B used by witness instantiations. -/
def wTB : Table :=
  ⟨["name", "state"], [("b1", [some "ann", some "nsw"]), ("b2", [some "cid", none])]⟩

/-! ## Claim theorems -/

/-- C2: every candidate pair emitted by the blocking indexer consists of two
records whose values on all blocking keys are identical (both block keys are
defined and equal). -/
theorem blocked_pairs_share_key (keys : List String) (A B : Table)
    (p : Row × Row) (hp : p ∈ indexBlockRecs keys A B) :
    ∃ ka, blockKey keys A.schema p.1.2 = some ka
      ∧ blockKey keys B.schema p.2.2 = some ka :=
  ((mem_indexBlockRecs_iff keys A B p).1 hp).2.2

/-- Witness for C2 at concrete tables: the pair of the two `nsw` records is
emitted and shares its block key. -/
theorem blocked_pairs_share_key_witness :
    ∃ ka, blockKey ["state"] wTA.schema [some "ann", some "nsw"] = some ka
      ∧ blockKey ["state"] wTB.schema [some "ann", some "nsw"] = some ka :=
  blocked_pairs_share_key ["state"] wTA wTB
    (("a1", [some "ann", some "nsw"]), ("b1", [some "ann", some "nsw"])) (by decide)

/-- C4: a record whose blocking key is absent or null is never part of any
candidate pair, on either side; in particular two records that are both
null on the blocking key are never paired with each other. -/
theorem null_key_forms_no_pairs (keys : List String) (A B : Table) (ra rb : Row)
    (h : blockKey keys A.schema ra.2 = none ∨ blockKey keys B.schema rb.2 = none) :
    (ra, rb) ∉ indexBlockRecs keys A B := by
  intro hp
  obtain ⟨-, -, ka, hka, hkb⟩ := (mem_indexBlockRecs_iff keys A B (ra, rb)).1 hp
  have hka2 : blockKey keys A.schema ra.2 = some ka := hka
  have hkb2 : blockKey keys B.schema rb.2 = some ka := hkb
  cases h with
  | inl h => rw [h] at hka2; cases hka2
  | inr h => rw [h] at hkb2; cases hkb2

/-- Witness for C4 at concrete tables: the record with a null `state` forms
no pair. -/
theorem null_key_forms_no_pairs_witness :
    (blockKey ["state"] wTA.schema [some "bob", none] = none
        ∨ blockKey ["state"] wTB.schema [some "ann", some "nsw"] = none)
    ∧ (("a2", [some "bob", none]), ("b1", [some "ann", some "nsw"]))
        ∉ indexBlockRecs ["state"] wTA wTB :=
  ⟨Or.inl (by decide),
    null_key_forms_no_pairs ["state"] wTA wTB ("a2", [some "bob", none])
      ("b1", [some "ann", some "nsw"]) (Or.inl (by decide))⟩

/-- C5: the exact comparator scores 1 when both values are present and equal
and 0 otherwise, and scores 0 — without failing — whenever either side is
missing. -/
theorem exact_comparator_spec :
    (∀ x y : String, exactScore (some x) (some y) = if x = y then 1 else 0)
    ∧ (∀ v : Value, exactScore none v = 0)
    ∧ (∀ v : Value, exactScore v none = 0) := by
  refine ⟨fun x y => rfl, fun v => rfl, fun v => ?_⟩
  cases v <;> rfl

/-- C7: a candidate pair is kept by the notebook's decision rule iff the sum
of its feature scores is at least 3. -/
theorem match_decision_iff (ft : List ((String × String) × List Rat))
    (p : (String × String) × List Rat) :
    p ∈ matchedRows ft ↔ p ∈ ft ∧ 3 ≤ p.2.sum := by
  simp [matchedRows, decideMatches, List.mem_filter]

/-- C9: two runs of the full pipeline on identical inputs and configuration
produce identical merged output. -/
theorem pipeline_deterministic (keys : List String) (cs : List Comparator)
    (thr : Rat) (A B : Table) :
    (runPipelineTwice keys cs thr A B).1 = (runPipelineTwice keys cs thr A B).2 :=
  rfl

/-- C10: the merge discards the original record ids — the merged output is
indexed by the fresh consecutive ids 0..n-1 — while every A-row's field
values are preserved, in order, followed by the surviving B-rows. -/
theorem merge_reindexed (A B : Table) (dupIds : List String) :
    (fullData A B dupIds).map Prod.fst = List.range (fullData A B dupIds).length
    ∧ (fullData A B dupIds).map Prod.snd
        = A.rows.map Prod.snd ++ (dfBNew B dupIds).map Prod.snd := by
  constructor
  · rw [fullData, List.enum_map_fst, List.enum_length]
  · rw [fullData, List.enum_map_snd]

theorem length_filter_not_add (l : List Row) (d : List String) :
    (l.filter (fun b => ! decide (b.1 ∈ d))).length
      + (l.filter (fun b => decide (b.1 ∈ d))).length = l.length := by
  induction l with
  | nil => rfl
  | cons x xs ih =>
    rw [List.filter_cons, List.filter_cons]
    by_cases h : x.1 ∈ d
    · rw [if_neg (by simp [h]), if_pos (by simp [h])]
      simp only [List.length_cons]
      omega
    · rw [if_pos (by simp [h]), if_neg (by simp [h])]
      simp only [List.length_cons]
      omega

theorem filter_mem_length (B : Table) (d : List String)
    (hB : (B.rows.map Prod.fst).Nodup) (hd : d.Nodup)
    (hsub : ∀ x ∈ d, x ∈ B.rows.map Prod.fst) :
    (B.rows.filter (fun b => decide (b.1 ∈ d))).length = d.length := by
  have h1 : (B.rows.filter (fun b => decide (b.1 ∈ d))).length
      = ((B.rows.map Prod.fst).filter (fun s => decide (s ∈ d))).length := by
    rw [← List.countP_eq_length_filter, ← List.countP_eq_length_filter,
      List.countP_map]
    rfl
  rw [h1]
  have hnodup : ((B.rows.map Prod.fst).filter (fun s => decide (s ∈ d))).Nodup :=
    hB.filter _
  have hperm :
      List.Perm ((B.rows.map Prod.fst).filter (fun s => decide (s ∈ d))) d := by
    rw [List.perm_ext_iff_of_nodup hnodup hd]
    intro a
    rw [List.mem_filter]
    constructor
    · rintro ⟨-, h⟩
      exact of_decide_eq_true h
    · intro h
      exact ⟨hsub a h, decide_eq_true h⟩
  exact hperm.length_eq

/-- C1: the merge outputs all of A's rows in their original order followed by
exactly those B-rows whose id is in no matched pair, in their original order;
its length is |A| + |B| - |matched B ids|, and no row of A is dropped. -/
theorem merge_correct (A B : Table) (dupIds : List String)
    (hB : (B.rows.map Prod.fst).Nodup) (hd : dupIds.Nodup)
    (hsub : ∀ x ∈ dupIds, x ∈ B.rows.map Prod.fst) :
    (fullData A B dupIds).map Prod.snd
        = A.rows.map Prod.snd ++ (dfBNew B dupIds).map Prod.snd
    ∧ (fullData A B dupIds).length
        = A.rows.length + B.rows.length - dupIds.length
    ∧ ∀ r ∈ A.rows, r.2 ∈ (fullData A B dupIds).map Prod.snd := by
  have hmap : (fullData A B dupIds).map Prod.snd
      = A.rows.map Prod.snd ++ (dfBNew B dupIds).map Prod.snd := by
    rw [fullData, List.enum_map_snd]
  refine ⟨hmap, ?_, ?_⟩
  · have h1 := length_filter_not_add B.rows dupIds
    have h2 := filter_mem_length B dupIds hB hd hsub
    rw [fullData, List.enum_length, List.length_append, List.length_map,
      List.length_map, dfBNew]
    rw [← h2, ← h1, ← Nat.add_assoc, Nat.add_sub_cancel]
  · intro r hr
    rw [hmap]
    exact List.mem_append_left _ (List.mem_map_of_mem Prod.snd hr)

/-- Witness for C1 at concrete tables: with matched B-id `b1`, the merged
output has 2 + 2 - 1 = 3 rows. -/
theorem merge_correct_witness :
    ((wTB.rows.map Prod.fst).Nodup ∧ (["b1"] : List String).Nodup
        ∧ ∀ x ∈ (["b1"] : List String), x ∈ wTB.rows.map Prod.fst)
    ∧ (fullData wTA wTB ["b1"]).length
        = wTA.rows.length + wTB.rows.length - (["b1"] : List String).length :=
  ⟨⟨by decide, by decide, by decide⟩,
    (merge_correct wTA wTB ["b1"] (by decide) (by decide) (by decide)).2.1⟩

theorem exactScore_zero_or_one (va vb : Value) :
    exactScore va vb = 0 ∨ exactScore va vb = 1 := by
  rcases va with _ | x <;> rcases vb with _ | y
  · exact Or.inl rfl
  · exact Or.inl rfl
  · exact Or.inl rfl
  · by_cases h : x = y
    · exact Or.inr (by simp [exactScore, h])
    · exact Or.inl (by simp [exactScore, h])

theorem compScore_zero_or_one (k : CompKind) (va vb : Value) :
    compScore k va vb = 0 ∨ compScore k va vb = 1 := by
  cases k with
  | exact => exact exactScore_zero_or_one va vb
  | stringSim t =>
    rcases va with _ | x <;> rcases vb with _ | y
    · exact Or.inl rfl
    · exact Or.inl rfl
    · exact Or.inl rfl
    · by_cases h : t ≤ normSim x y
      · exact Or.inr (by simp [compScore, stringScore, h])
      · exact Or.inl (by simp [compScore, stringScore, h])

/-- C6: the string comparator in threshold-gated mode scores 1 exactly when
the normalized Levenshtein similarity reaches the threshold (else 0), scores
0 on a missing side, every feature-vector score lies in [0,1], and the exact
comparator only ever produces 0 or 1. -/
theorem string_comparator_spec (t : Rat) (_ht0 : 0 ≤ t) (_ht1 : t ≤ 1) :
    (∀ x y : String, stringScore t (some x) (some y)
        = if t ≤ normSim x y then 1 else 0)
    ∧ (∀ v : Value, stringScore t none v = 0)
    ∧ (∀ v : Value, stringScore t v none = 0)
    ∧ (∀ (cs : List Comparator) (A B : Table) (a b : Row),
        ∀ s ∈ featureRow cs A B a b, 0 ≤ s ∧ s ≤ 1)
    ∧ (∀ va vb : Value, exactScore va vb = 0 ∨ exactScore va vb = 1) := by
  refine ⟨fun x y => rfl, fun v => rfl, fun v => ?_, ?_, exactScore_zero_or_one⟩
  · cases v <;> rfl
  · intro cs A B a b s hs
    rw [featureRow, List.mem_map] at hs
    obtain ⟨c, -, rfl⟩ := hs
    rcases compScore_zero_or_one c.kind
        (Option.join (getVal A.schema a.2 c.fieldA))
        (Option.join (getVal B.schema b.2 c.fieldB)) with h | h <;>
      rw [h] <;> norm_num

/-- Witness for C6 at the notebook's threshold 0.85: the gating equation,
instantiated at two concrete strings. -/
theorem string_comparator_spec_witness :
    (0 : Rat) ≤ 17/20 ∧ (17/20 : Rat) ≤ 1
    ∧ stringScore (17/20) (some "kitten") (some "sitting")
        = if (17/20 : Rat) ≤ normSim "kitten" "sitting" then 1 else 0 :=
  ⟨by norm_num, by norm_num,
    (string_comparator_spec (17/20) (by norm_num) (by norm_num)).1 "kitten" "sitting"⟩

/-- C8: a comparator referencing a field absent from either schema makes the
whole pipeline fail with a configuration error — no partial output. -/
theorem config_error_fails (keys : List String) (cs : List Comparator)
    (thr : Rat) (A B : Table)
    (h : ∃ c ∈ cs, c.fieldA ∉ A.schema ∨ c.fieldB ∉ B.schema) :
    pipeline keys cs thr A B
      = Except.error "configuration error: unknown field" := by
  obtain ⟨c, hc, hf⟩ := h
  have hok : fieldsOk cs A B = false := by
    rw [fieldsOk, List.all_eq_false]
    refine ⟨c, hc, ?_⟩
    rcases hf with h | h <;> simp [h]
  rw [pipeline, compute, hok]
  simp

/-- Witness for C8: a comparator on the absent field `zip` fails the run on
the concrete tables. -/
theorem config_error_fails_witness :
    (∃ c ∈ [Comparator.mk "zip" "zip" CompKind.exact "z"],
        c.fieldA ∉ wTA.schema ∨ c.fieldB ∉ wTB.schema)
    ∧ pipeline ["state"] [Comparator.mk "zip" "zip" CompKind.exact "z"] 3 wTA wTB
        = Except.error "configuration error: unknown field" :=
  ⟨⟨Comparator.mk "zip" "zip" CompKind.exact "z", List.mem_singleton.mpr rfl,
      Or.inl (by decide)⟩,
    config_error_fails ["state"] [Comparator.mk "zip" "zip" CompKind.exact "z"] 3
      wTA wTB
      ⟨Comparator.mk "zip" "zip" CompKind.exact "z", List.mem_singleton.mpr rfl,
        Or.inl (by decide)⟩⟩

/-- The candidate id pairs contributed by one A-side record. -/
def pairsOfA (keys : List String) (B : Table) (sch : List String) (a : Row) :
    List (String × String) :=
  match blockKey keys sch a.2 with
  | none => []
  | some ka =>
    (B.rows.filter (fun b => decide (blockKey keys B.schema b.2 = some ka))).map
      (fun b => (a.1, b.1))

theorem indexPairs_eq_flatMap (keys : List String) (A B : Table) :
    indexPairs keys A B = A.rows.flatMap (pairsOfA keys B A.schema) := by
  rw [indexPairs, indexBlockRecs, List.map_flatMap]
  congr 1
  funext a
  simp only [pairsOfA]
  cases blockKey keys A.schema a.2 with
  | none => simp
  | some ka => simp [List.map_map, Function.comp]

theorem pairsOfA_fst (keys : List String) (B : Table) (sch : List String)
    (a : Row) (q : String × String) (hq : q ∈ pairsOfA keys B sch a) :
    q.1 = a.1 := by
  simp only [pairsOfA] at hq
  cases hk : blockKey keys sch a.2 with
  | none =>
    rw [hk] at hq
    simp at hq
  | some ka =>
    rw [hk] at hq
    simp only [List.mem_map] at hq
    obtain ⟨b, -, hb⟩ := hq
    rw [← hb]

theorem pairsOfA_nodup (keys : List String) (B : Table) (sch : List String)
    (a : Row) (hB : (B.rows.map Prod.fst).Nodup) :
    (pairsOfA keys B sch a).Nodup := by
  simp only [pairsOfA]
  cases blockKey keys sch a.2 with
  | none => exact List.nodup_nil
  | some ka =>
    apply List.Nodup.map_on
    · intro x hx y hy hxy
      have hx1 := (List.mem_filter.1 hx).1
      have hy1 := (List.mem_filter.1 hy).1
      have h2 : x.1 = y.1 := congrArg Prod.snd hxy
      exact List.inj_on_of_nodup_map hB hx1 hy1 h2
    · exact (List.Nodup.of_map Prod.fst hB).filter _

/-- C3: under unique record ids within each collection, the candidate pair
set has no duplicate pairs, and every pair's first id is an A-id and its
second id a B-id — no A-A, B-B or self-pairs. -/
theorem candidate_pairs_invariant (keys : List String) (A B : Table)
    (hA : (A.rows.map Prod.fst).Nodup) (hB : (B.rows.map Prod.fst).Nodup) :
    (indexPairs keys A B).Nodup
    ∧ ∀ q ∈ indexPairs keys A B,
        q.1 ∈ A.rows.map Prod.fst ∧ q.2 ∈ B.rows.map Prod.fst := by
  constructor
  · rw [indexPairs_eq_flatMap, List.nodup_flatMap]
    constructor
    · exact fun a _ => pairsOfA_nodup keys B A.schema a hB
    · have hpw : A.rows.Pairwise (fun x y => x.1 ≠ y.1) := List.pairwise_map.mp hA
      refine hpw.imp ?_
      intro x y hxy q hqx hqy
      exact hxy ((pairsOfA_fst keys B A.schema x q hqx).symm.trans
        (pairsOfA_fst keys B A.schema y q hqy))
  · intro q hq
    rw [indexPairs, List.mem_map] at hq
    obtain ⟨p, hp, rfl⟩ := hq
    obtain ⟨h1, h2, -⟩ := (mem_indexBlockRecs_iff keys A B p).1 hp
    exact ⟨List.mem_map_of_mem Prod.fst h1, List.mem_map_of_mem Prod.fst h2⟩

/-- Witness for C3 at concrete tables with unique ids. -/
theorem candidate_pairs_invariant_witness :
    (wTA.rows.map Prod.fst).Nodup ∧ (wTB.rows.map Prod.fst).Nodup
    ∧ (indexPairs ["state"] wTA wTB).Nodup :=
  ⟨by decide, by decide,
    (candidate_pairs_invariant ["state"] wTA wTB (by decide) (by decide)).1⟩
